import Mathlib

/-!
Shallow embedding of the revision-lifecycle core of the foomo/typesense
repository (packages `typesenseapi` and `typesenseindexing`), together with
theorems settling the frozen claims about it.

Go strings are modelled as lists of characters (`GoString`), Go maps as
association lists, remote typesense/contentserver calls as explicit oracle
inputs (`Except`/`Option` results), and the imperative loops of the source
as structural recursions that mirror the source statement by statement.
-/

namespace FoomoTypesense

/-- Go `string`, modelled as a list of characters. -/
abbrev GoString : Type := List Char

/-- The separator used by `formatCollectionName` (`fmt.Sprintf("%s-%s", ...)`). -/
def hyphen : Char := '-'

/-- Go `strings.HasPrefix(s, pre)`. -/
def strHasPre : GoString → GoString → Bool
  | _, [] => true
  | [], _ :: _ => false
  | c :: cs, p :: ps => c = p && strHasPre cs ps

/-- Go `strings.TrimPrefix(s, pre)`: drops `pre` when it is a leading segment
of `s`, otherwise returns `s` unchanged. -/
def strTrimPre (s pre : GoString) : GoString :=
  if strHasPre s pre then s.drop pre.length else s

/-- `formatCollectionName` from the api package:
`fmt.Sprintf("%s-%s", indexID, revisionID)`. -/
def formatCollectionName (indexID revisionID : GoString) : GoString :=
  indexID ++ [hyphen] ++ revisionID

/-- `extractRevisionID(collectionName, name)` from the api package: returns the
suffix after `name + "-"` when that is a leading segment of `collectionName`
and the suffix has exactly 16 characters, otherwise the empty string. -/
def extractRevisionID (collectionName name : GoString) : GoString :=
  if ¬ (strHasPre collectionName (name ++ [hyphen]) = true) then
    []
  else
    let revisionID := strTrimPre collectionName (name ++ [hyphen])
    if ¬ (revisionID.length = 16) then [] else revisionID

/-- Go byte-wise string comparison `a < b`, on the character-list model. -/
def goStringLt : GoString → GoString → Bool
  | [], [] => false
  | [], _ :: _ => true
  | _ :: _, [] => false
  | a :: as, b :: bs =>
    if a.toNat < b.toNat then true
    else if b.toNat < a.toNat then false
    else goStringLt as bs

/-- One step of the sort used by `pruneOldCollections`: insert into a list kept
in descending order under Go string comparison. -/
def insertDescending (x : GoString) : List GoString → List GoString
  | [] => [x]
  | y :: ys => if goStringLt y x then x :: y :: ys else y :: insertDescending x ys

/-- The `sort.Slice(oldCollections, func(i, j) { return old[i] > old[j] })`
step of `pruneOldCollections`: the (unique, as the candidate names are
distinct) permutation sorted descending under Go string comparison. -/
def sortDescending : List GoString → List GoString
  | [] => []
  | x :: xs => insertDescending x (sortDescending xs)

/-- Candidate selection of `pruneOldCollections`: all retrieved collection
names carrying the `alias + "-"` leading segment, the current collection
excluded. -/
def pruneCandidates (collections : List GoString) (aliasName currentCollection : GoString) :
    List GoString :=
  collections.filter
    (fun col => strHasPre col (aliasName ++ [hyphen]) && !(decide (col = currentCollection)))

/-- The set of collection names `pruneOldCollections` deletes: the sorted
candidates minus their first element, and nothing when at most one candidate
exists. -/
def pruneToDelete (collections : List GoString) (aliasName currentCollection : GoString) :
    List GoString :=
  let oldCollections := sortDescending (pruneCandidates collections aliasName currentCollection)
  if 1 < oldCollections.length then oldCollections.drop 1 else []

/-- The collection names still present after `pruneOldCollections` ran over
`collections`. -/
def pruneRemaining (collections : List GoString) (aliasName currentCollection : GoString) :
    List GoString :=
  collections.filter
    (fun col => decide (¬ col ∈ pruneToDelete collections aliasName currentCollection))

/-- The alias-to-collection-name mapping held by the typesense backing store,
modelled as an association list with unique keys. -/
abbrev AliasMap : Type := List (GoString × GoString)

/-- Look an alias name up in the store. -/
def lookupAlias : AliasMap → GoString → Option GoString
  | [], _ => none
  | (k, v) :: rest, key => if k = key then some v else lookupAlias rest key

/-- `client.Aliases().Upsert(name, collection)` on the store state: the alias
now maps to `v`, all other aliases are unchanged. -/
def aliasUpsert (m : AliasMap) (k v : GoString) : AliasMap :=
  (k, v) :: m.filter (fun p => !(decide (p.1 = k)))

/-- The fields of `BaseAPI` that the claims depend on (`revisionID`). -/
structure APIState where
  revisionID : GoString

/-- Oracle inputs for one `Initialize` call: the outcome of every remote
typesense call it makes, plus the revision id minted by
`generateRevisionID()` (wall-clock derived in the source). `Option GoString`
is a Go `error` result (`none` = nil). -/
structure InitEnv where
  healthResult : Option GoString
  aliasesRetrieveResult : Except GoString (List (GoString × GoString))
  collectionsRetrieveResult : Except GoString (List GoString)
  createResult : GoString → Option GoString
  aliasUpsertResult : GoString → Option GoString
  newRevisionID : GoString
  presetUpsertResult : Option GoString

/-- Result of `Initialize`: the `BaseAPI` state, the store's alias mapping,
and the returned (revisionID, error) pair. -/
structure InitOutcome where
  state : APIState
  storeAliases : AliasMap
  result : Except GoString GoString

/-- The per-index loop of `Initialize` (Step 4 of api.go): for each configured
index id, create the collection `formatCollectionName indexID newRevisionID`
(`createCollectionIfNotExists`) and upsert the alias to point at it
(`ensureAliasMapping`); either failure returns that error immediately. -/
def initLoop (env : InitEnv) : List GoString → AliasMap → AliasMap × Option GoString
  | [], aliases => (aliases, none)
  | indexID :: rest, aliases =>
    match env.createResult (formatCollectionName indexID env.newRevisionID) with
    | some e => (aliases, some e)
    | none =>
      match env.aliasUpsertResult indexID with
      | some e => (aliases, some e)
      | none =>
        initLoop env rest
          (aliasUpsert aliases indexID (formatCollectionName indexID env.newRevisionID))

/-- `Initialize` from api.go: health check, retrieve aliases and collections
(their values feed only logging and the dead `latestRevisions` /
`aliasMappings` maps), run the per-index create-and-realias loop, set the
`revisionID` field, then upsert the search preset when one is configured. -/
def Initialize (cfgIndices : List GoString) (presetConfigured : Bool) (env : InitEnv)
    (st : APIState) (storeAliases : AliasMap) : InitOutcome :=
  match env.healthResult with
  | some e => { state := st, storeAliases := storeAliases, result := Except.error e }
  | none =>
    match env.aliasesRetrieveResult with
    | Except.error e => { state := st, storeAliases := storeAliases, result := Except.error e }
    | Except.ok _aliases =>
      match env.collectionsRetrieveResult with
      | Except.error e =>
        { state := st, storeAliases := storeAliases, result := Except.error e }
      | Except.ok _existing =>
        let loopOut := initLoop env cfgIndices storeAliases
        match loopOut.2 with
        | some e => { state := st, storeAliases := loopOut.1, result := Except.error e }
        | none =>
          let st2 : APIState := { revisionID := env.newRevisionID }
          if presetConfigured then
            match env.presetUpsertResult with
            | some e =>
              { state := st2, storeAliases := loopOut.1, result := Except.error e }
            | none =>
              { state := st2, storeAliases := loopOut.1,
                result := Except.ok env.newRevisionID }
          else
            { state := st2, storeAliases := loopOut.1,
              result := Except.ok env.newRevisionID }

/-- `Healthz` from api.go: an error exactly when the `revisionID` field is the
empty string; the function performs no remote call, so it takes no store or
client input. -/
def Healthz (revisionID : GoString) : Option GoString :=
  if revisionID = [] then
    some ['r', 'e', 'v', 'i', 's', 'i', 'o', 'n', 'I', 'D', ' ',
      'n', 'o', 't', ' ', 's', 'e', 't']
  else none

/-- One entry of the `Import` bulk-call response. -/
structure ImportResult where
  success : Bool
  errorMsg : GoString

/-- What one `UpsertDocuments` call did. -/
structure UpsertOutcome where
  remoteCalled : Bool
  successCount : Nat
  failureCount : Nat
  errorReturned : Option GoString

/-- `UpsertDocuments` from api.go, the one bulk `Import` call supplied as an
oracle: `Except.error` means the whole call was rejected, `Except.ok rs` means
the call went through with per-document results `rs`. An empty document slice
returns nil without any remote call; per-document failures are only counted. -/
def UpsertDocuments {Doc : Type} (documents : List Doc)
    (importCall : Except GoString (List ImportResult)) : UpsertOutcome :=
  if documents.length = 0 then
    { remoteCalled := false, successCount := 0, failureCount := 0, errorReturned := none }
  else
    match importCall with
    | Except.error e =>
      { remoteCalled := true, successCount := 0, failureCount := 0,
        errorReturned := some e }
    | Except.ok importResults =>
      { remoteCalled := true
        successCount := (importResults.filter (fun r => r.success)).length
        failureCount := (importResults.filter (fun r => !r.success)).length
        errorReturned := none }

/-- Oracle inputs for one `BaseIndexer.Run` (indexer.go): the results of the
collaborator calls it makes. -/
structure RunEnv (Doc : Type) where
  initResult : Except GoString GoString
  indicesResult : Except GoString (List GoString)
  provideResult : GoString → Except GoString (List Doc)
  upsertResult : GoString → GoString → List Doc → Except GoString Unit
  commitResult : Except GoString Unit
  revertResult : Except GoString Unit

/-- Trace of one `Run`: which indices were attempted in the per-index loop,
the taint flag and document counter after the loop, which terminal operation
was invoked, and the error `Run` returned (`none` = nil). -/
structure RunTrace where
  attempted : List GoString
  tainted : Bool
  indexedDocuments : Nat
  commitCalled : Bool
  revertCalled : Bool
  errorReturned : Option GoString

/-- The per-index loop of `Run` (indexer.go Step 3): fetch documents from the
provider and upsert them; either failure sets the taint flag and continues
with the next index id. Returns (tainted, indexedDocuments, attempted). -/
def runIndexLoop {Doc : Type} (env : RunEnv Doc) (revisionID : GoString) :
    List GoString → Bool → Nat → List GoString → Bool × Nat × List GoString
  | [], tainted, count, attempted => (tainted, count, attempted)
  | indexID :: rest, tainted, count, attempted =>
    match env.provideResult indexID with
    | Except.error _ => runIndexLoop env revisionID rest true count (attempted ++ [indexID])
    | Except.ok documents =>
      match env.upsertResult revisionID indexID documents with
      | Except.error _ =>
        runIndexLoop env revisionID rest true count (attempted ++ [indexID])
      | Except.ok _ =>
        runIndexLoop env revisionID rest tainted (count + documents.length)
          (attempted ++ [indexID])

/-- `BaseIndexer.Run` from indexer.go: initialize, list indices, run the
per-index loop, then commit when the run is untainted with a positive document
count and revert otherwise. -/
def Run {Doc : Type} (env : RunEnv Doc) : RunTrace :=
  match env.initResult with
  | Except.error e =>
    { attempted := [], tainted := false, indexedDocuments := 0,
      commitCalled := false, revertCalled := false, errorReturned := some e }
  | Except.ok revisionID =>
    if revisionID = [] then
      -- err == nil but revisionID == "": Run returns the nil err
      { attempted := [], tainted := false, indexedDocuments := 0,
        commitCalled := false, revertCalled := false, errorReturned := none }
    else
      match env.indicesResult with
      | Except.error e =>
        { attempted := [], tainted := false, indexedDocuments := 0,
          commitCalled := false, revertCalled := false, errorReturned := some e }
      | Except.ok indices =>
        let loopOut := runIndexLoop env revisionID indices false 0 []
        if loopOut.1 = false ∧ 0 < loopOut.2.1 then
          { attempted := loopOut.2.2, tainted := loopOut.1,
            indexedDocuments := loopOut.2.1, commitCalled := true, revertCalled := false,
            errorReturned :=
              match env.commitResult with
              | Except.error e => some e
              | Except.ok _ => none }
        else
          { attempted := loopOut.2.2, tainted := loopOut.1,
            indexedDocuments := loopOut.2.1, commitCalled := false, revertCalled := true,
            errorReturned :=
              match env.revertResult with
              | Except.error e => some e
              | Except.ok _ => none }

/-- A per-index attempt fails when document provision errors, or provision
succeeds and the upsert errors. -/
def indexAttemptFails {Doc : Type} (env : RunEnv Doc) (revisionID indexID : GoString) :
    Prop :=
  (∃ e, env.provideResult indexID = Except.error e) ∨
  (∃ documents, env.provideResult indexID = Except.ok documents ∧
    ∃ e, env.upsertResult revisionID indexID documents = Except.error e)

/-- A `{DocumentType, DocumentID}` descriptor (`pkg.DocumentInfo`). -/
structure DocumentInfo where
  documentType : GoString
  documentID : GoString
deriving DecidableEq

/-- The batch-resolved `urlsByIDs` map passed through to provider functions. -/
abbrev UrlMap : Type := List (GoString × GoString)

/-- A `pkg.DocumentProviderFunc`: takes the index id, the document id and the
url map and returns (document pointer, error); the pointer can be nil. -/
abbrev ProviderFunc (Doc : Type) : Type :=
  GoString → GoString → UrlMap → Except GoString (Option Doc)

/-- Lookup in the `documentProviderFuncs` map, keyed by document type. -/
def lookupProviderFunc {Doc : Type} :
    List (GoString × ProviderFunc Doc) → GoString → Option (ProviderFunc Doc)
  | [], _ => none
  | (k, f) :: rest, key => if k = key then some f else lookupProviderFunc rest key

/-- The per-descriptor loop of `Provide` (contentserver.go): over
`documents := make([]*indexDocument, len(documentInfos))`, slot `index` is
assigned only when a provider function for the descriptor's type is
registered, it returns no error, and the returned document is non-nil;
otherwise the loop continues and the slot stays nil. -/
def provideLoop {Doc : Type} (funcs : List (GoString × ProviderFunc Doc))
    (indexID : GoString) (urls : UrlMap) :
    List DocumentInfo → Nat → List (Option Doc) → List (Option Doc)
  | [], _, documents => documents
  | info :: rest, index, documents =>
    match lookupProviderFunc funcs info.documentType with
    | none => provideLoop funcs indexID urls rest (index + 1) documents
    | some documentProvider =>
      match documentProvider indexID info.documentID urls with
      | Except.error _ => provideLoop funcs indexID urls rest (index + 1) documents
      | Except.ok none => provideLoop funcs indexID urls rest (index + 1) documents
      | Except.ok (some document) =>
        provideLoop funcs indexID urls rest (index + 1)
          (documents.set index (some document))

/-- `Provide` restricted to its document-assembly part: the two remote calls
have succeeded, yielding the descriptor sequence and the url map. -/
def Provide {Doc : Type} (funcs : List (GoString × ProviderFunc Doc))
    (indexID : GoString) (urls : UrlMap) (documentInfos : List DocumentInfo) :
    List (Option Doc) :=
  provideLoop funcs indexID urls documentInfos 0
    (List.replicate documentInfos.length none)

/-- The value `Provide` leaves in one result slot, as a function of that
slot's descriptor alone. -/
def provideSlot {Doc : Type} (funcs : List (GoString × ProviderFunc Doc))
    (indexID : GoString) (urls : UrlMap) (info : DocumentInfo) : Option Doc :=
  match lookupProviderFunc funcs info.documentType with
  | none => none
  | some documentProvider =>
    match documentProvider indexID info.documentID urls with
    | Except.error _ => none
    | Except.ok d => d

/-- A content-tree node (`content.RepoNode`): identity, declared mime type,
the `Hidden` flag, and the child pointers, which can be nil. -/
inductive RepoNode : Type where
  | node (nodeID mimeType : GoString) (hidden : Bool)
      (children : List (Option RepoNode)) : RepoNode

/-- The `ID` field. -/
def RepoNode.idOf : RepoNode → GoString
  | RepoNode.node i _ _ _ => i

/-- The `MimeType` field. -/
def RepoNode.mimeOf : RepoNode → GoString
  | RepoNode.node _ m _ _ => m

/-- The `Hidden` field. -/
def RepoNode.hiddenOf : RepoNode → Bool
  | RepoNode.node _ _ h _ => h

/-- The flat `map[string]*content.RepoNode` keyed by node identity. -/
abbrev NodeMap : Type := List (GoString × RepoNode)

/-- Go map assignment `nodeMap[node.ID] = node`: replaces an existing binding
for that key, otherwise adds one. -/
def mapSet (m : NodeMap) (k : GoString) (v : RepoNode) : NodeMap :=
  if m.any (fun p => decide (p.1 = k)) then
    m.map (fun p => if p.1 = k then (k, v) else p)
  else m ++ [(k, v)]

mutual
/-- `createFlatRepoNodeMap` from contentserver.go: a nil node contributes
nothing; otherwise the node is stored under its identity and every child is
processed recursively into the accumulated map. -/
def createFlatRepoNodeMap : Option RepoNode → NodeMap → NodeMap
  | none, nodeMap => nodeMap
  | some (RepoNode.node i m h cs), nodeMap =>
    flatMapChildren cs (mapSet nodeMap i (RepoNode.node i m h cs))

/-- The `for _, child := range node.Nodes` loop of `createFlatRepoNodeMap`. -/
def flatMapChildren : List (Option RepoNode) → NodeMap → NodeMap
  | [], nodeMap => nodeMap
  | c :: rest, nodeMap => flatMapChildren rest (createFlatRepoNodeMap c nodeMap)
end

mutual
/-- All non-null nodes reachable in a tree, in traversal order
(specification-side characterization used to state reachability). -/
def treeNodes : Option RepoNode → List RepoNode
  | none => []
  | some (RepoNode.node i m h cs) => RepoNode.node i m h cs :: forestNodes cs

/-- All non-null nodes reachable in a child list. -/
def forestNodes : List (Option RepoNode) → List RepoNode
  | [] => []
  | c :: rest => treeNodes c ++ forestNodes rest
end

/-- Go `slices.Contains` on string slices. -/
def slicesContains : List GoString → GoString → Bool
  | [], _ => false
  | y :: rest, x => decide (y = x) || slicesContains rest x

/-- The descriptor-list construction of `getDocumentIDsByIndexID` once the
flat node map is built: skip a node when it is hidden or its mime type is not
in the supported list, otherwise append a `{DocumentType, DocumentID}`
descriptor. -/
def documentInfosOf (supported : List GoString) (nodeMap : NodeMap) :
    List DocumentInfo :=
  nodeMap.filterMap (fun p =>
    if p.2.hiddenOf || !(slicesContains supported p.2.mimeOf) then none
    else some { documentType := p.2.mimeOf, documentID := p.2.idOf })

/-- Look a dimension up in the contentserver repo response. -/
def lookupRepoDimension : List (GoString × Option RepoNode) → GoString → Option (Option RepoNode)
  | [], _ => none
  | (k, v) :: rest, key => if k = key then some v else lookupRepoDimension rest key

/-- `getDocumentIDsByIndexID` from contentserver.go, with the repo tree
already fetched: missing dimension is an error, otherwise flatten the root
node and filter. -/
def getDocumentIDsByIndexID (repo : List (GoString × Option RepoNode))
    (supported : List GoString) (indexID : GoString) :
    Except GoString (List DocumentInfo) :=
  match lookupRepoDimension repo indexID with
  | none =>
    Except.error
      (['c', 'o', 'n', 't', 'e', 'n', 's', 'e', 'r', 'v', 'e', 'r', ' ',
        'd', 'i', 'm', 'e', 'n', 's', 'i', 'o', 'n', ' '] ++ indexID ++
        [' ', 'n', 'o', 't', ' ', 'f', 'o', 'u', 'n', 'd'])
  | some rootRepoNode =>
    Except.ok (documentInfosOf supported (createFlatRepoNodeMap rootRepoNode []))

/-- Concrete tree node: hidden, of supported type. -/
def c8NodeA : RepoNode := RepoNode.node ['a'] ['t'] true []

/-- Concrete tree node: visible, of unsupported type. -/
def c8NodeB : RepoNode := RepoNode.node ['b'] ['u'] false []

/-- Concrete tree node: visible, of supported type. -/
def c8NodeC : RepoNode := RepoNode.node ['c'] ['t'] false []

/-- Concrete tree: a visible supported root with children A (hidden),
B (unsupported type), C (visible and supported) and one nil pointer. -/
def c8Root : Option RepoNode :=
  some (RepoNode.node ['r'] ['t'] false [some c8NodeA, some c8NodeB, some c8NodeC, none])

/-- Concrete one-dimension contentserver repo response. -/
def c8Repo : List (GoString × Option RepoNode) := [(['d'], c8Root)]

/-- A fully successful one-index run environment, used as a concrete input. -/
def c2Env : RunEnv Unit :=
  { initResult := Except.ok ['r']
    indicesResult := Except.ok [['a']]
    provideResult := fun _ => Except.ok [()]
    upsertResult := fun _ _ _ => Except.ok ()
    commitResult := Except.ok ()
    revertResult := Except.ok () }

/-- A run environment whose second index fails document provision, used as a
concrete input. -/
def c3Env : RunEnv Unit :=
  { initResult := Except.ok ['r']
    indicesResult := Except.ok [['a'], ['b']]
    provideResult := fun i => if i = ['b'] then Except.error ['x'] else Except.ok [()]
    upsertResult := fun _ _ _ => Except.ok ()
    commitResult := Except.ok ()
    revertResult := Except.ok () }

/-- The revision the store alias points at before the concrete initialize. -/
def c1OldRev : GoString :=
  ['2', '0', '2', '5', '-', '0', '1', '-', '0', '1', '-', '0', '0', '-', '0', '0']

/-- A fully successful initialize environment minting a fresh revision id,
used as a concrete input. -/
def c1Env : InitEnv :=
  { healthResult := none
    aliasesRetrieveResult := Except.ok [(['i'], formatCollectionName ['i'] c1OldRev)]
    collectionsRetrieveResult := Except.ok [formatCollectionName ['i'] c1OldRev]
    createResult := fun _ => none
    aliasUpsertResult := fun _ => none
    newRevisionID :=
      ['2', '0', '2', '5', '-', '0', '1', '-', '0', '2', '-', '0', '0', '-', '0', '0']
    presetUpsertResult := none }

/-- An initialize environment whose only failure is the search-preset upsert,
used as a concrete input. -/
def c10Env : InitEnv :=
  { healthResult := none
    aliasesRetrieveResult := Except.ok []
    collectionsRetrieveResult := Except.ok []
    createResult := fun _ => none
    aliasUpsertResult := fun _ => none
    newRevisionID := ['n']
    presetUpsertResult := some ['p'] }

theorem strHasPre_append (p t : GoString) : strHasPre (p ++ t) p = true := by
  induction p with
  | nil => cases t <;> rfl
  | cons c cs ih => simp [strHasPre, ih]

theorem strTrimPre_append (p t : GoString) : strTrimPre (p ++ t) p = t := by
  unfold strTrimPre
  rw [strHasPre_append]
  simp

/-- C6: for every index id and every revision id of the valid fixed length
(16 characters), `extractRevisionID` applied to
`formatCollectionName id rev` with index `id` returns exactly `rev`. -/
theorem extractRevisionID_formatCollectionName (id rev : GoString)
    (hrev : rev.length = 16) :
    extractRevisionID (formatCollectionName id rev) id = rev := by
  unfold extractRevisionID formatCollectionName
  rw [strHasPre_append, strTrimPre_append]
  simp [hrev]

/-- Witness for C6 at a concrete id and 16-character revision id. -/
theorem extractRevisionID_formatCollectionName_witness :
    extractRevisionID
      (formatCollectionName ['w', 'w', 'w']
        ['2', '0', '2', '5', '-', '0', '1', '-', '0', '2', '-', '1', '2', '-', '3', '4'])
      ['w', 'w', 'w']
      = ['2', '0', '2', '5', '-', '0', '1', '-', '0', '2', '-', '1', '2', '-', '3', '4'] :=
  extractRevisionID_formatCollectionName
    ['w', 'w', 'w']
    ['2', '0', '2', '5', '-', '0', '1', '-', '0', '2', '-', '1', '2', '-', '3', '4']
    (by decide)

/-- C7: `extractRevisionID` returns the empty "no revision" value whenever the
collection name does not start with the index id followed by a hyphen, or the
remainder after that leading segment does not have exactly 16 characters. -/
theorem extractRevisionID_no_revision (collectionName name : GoString)
    (h : ¬ (strHasPre collectionName (name ++ [hyphen]) = true) ∨
      ¬ ((strTrimPre collectionName (name ++ [hyphen])).length = 16)) :
    extractRevisionID collectionName name = [] := by
  unfold extractRevisionID
  rcases h with h | h
  · simp [h]
  · by_cases hp : strHasPre collectionName (name ++ [hyphen]) = true
    · simp [hp, h]
    · simp [hp]

/-- Witness for C7: a name with the right leading segment but a 4-character
remainder yields the empty revision. -/
theorem extractRevisionID_no_revision_witness :
    extractRevisionID ['w', '-', 'a', 'b', 'c', 'd'] ['w'] = [] :=
  extractRevisionID_no_revision ['w', '-', 'a', 'b', 'c', 'd'] ['w'] (by decide)

theorem goStringLt_irrefl (s : GoString) : goStringLt s s = false := by
  induction s with
  | nil => rfl
  | cons c cs ih => simp [goStringLt, ih]

theorem goStringLt_asymm (a : GoString) :
    ∀ b, goStringLt a b = true → goStringLt b a = false := by
  induction a with
  | nil =>
    intro b hb
    cases b with
    | nil => simp [goStringLt] at hb
    | cons y ys => rfl
  | cons x xs ih =>
    intro b hb
    cases b with
    | nil => simp [goStringLt] at hb
    | cons y ys =>
      simp only [goStringLt] at hb ⊢
      by_cases h1 : x.toNat < y.toNat
      · have h2 : ¬ y.toNat < x.toNat := by omega
        simp [h1, h2]
      · by_cases h2 : y.toNat < x.toNat
        · simp [h1, h2] at hb
        · simp only [h1, h2, if_false, if_neg] at hb ⊢
          simp [ih ys hb]

theorem goStringLt_append_left (s t1 t2 : GoString) :
    goStringLt (s ++ t1) (s ++ t2) = goStringLt t1 t2 := by
  induction s with
  | nil => rfl
  | cons c cs ih => simp [goStringLt, ih]

theorem goStringLt_format (id r1 r2 : GoString) :
    goStringLt (formatCollectionName id r1) (formatCollectionName id r2) =
      goStringLt r1 r2 := by
  unfold formatCollectionName
  exact goStringLt_append_left (id ++ [hyphen]) r1 r2

theorem formatCollectionName_inj (id r1 r2 : GoString)
    (h : formatCollectionName id r1 = formatCollectionName id r2) : r1 = r2 := by
  unfold formatCollectionName at h
  exact List.append_cancel_left h

theorem mem_map_format (id r : GoString) (l : List GoString) :
    (formatCollectionName id r ∈ l.map (formatCollectionName id)) ↔ r ∈ l := by
  constructor
  · intro h
    rcases List.mem_map.mp h with ⟨r', hr', he⟩
    rw [← formatCollectionName_inj id r' r he]
    exact hr'
  · intro h
    exact List.mem_map_of_mem _ h

theorem insertDescending_bottom (x : GoString) :
    ∀ l, (∀ y ∈ l, goStringLt x y = true) → insertDescending x l = l ++ [x] := by
  intro l
  induction l with
  | nil => intro _; rfl
  | cons y ys ih =>
    intro h
    have hy : goStringLt x y = true := h y (by simp)
    have hyx : goStringLt y x = false := goStringLt_asymm x y hy
    have hrec := ih (fun z hz => h z (by simp [hz]))
    simp [insertDescending, hyx, hrec]

theorem sortDescending_of_ascending (l : List GoString)
    (h : List.Pairwise (fun a b => goStringLt a b = true) l) :
    sortDescending l = l.reverse := by
  induction l with
  | nil => rfl
  | cons x xs ih =>
    rw [List.pairwise_cons] at h
    have hrev : ∀ y ∈ xs.reverse, goStringLt x y = true :=
      fun y hy => h.1 y (List.mem_reverse.mp hy)
    simp only [sortDescending, ih h.2, insertDescending_bottom x xs.reverse hrev,
      List.reverse_cons]

theorem filterOverMap {α β : Type} (p : β → Bool) (f : α → β) (l : List α) :
    (l.map f).filter p = (l.filter (fun a => p (f a))).map f := by
  induction l with
  | nil => rfl
  | cons a rest ih => by_cases h : p (f a) <;> simp [h, ih]

theorem pruneCandidates_map (id : GoString) (rs : List GoString) (rl : GoString)
    (hne : ∀ r ∈ rs, ¬ r = rl) :
    pruneCandidates ((rs ++ [rl]).map (formatCollectionName id)) id
        (formatCollectionName id rl)
      = rs.map (formatCollectionName id) := by
  unfold pruneCandidates
  rw [filterOverMap]
  have hpre : ∀ r : GoString,
      strHasPre (formatCollectionName id r) (id ++ [hyphen]) = true := by
    intro r
    unfold formatCollectionName
    exact strHasPre_append (id ++ [hyphen]) r
  have hval : ∀ r ∈ rs,
      (strHasPre (formatCollectionName id r) (id ++ [hyphen]) &&
        !(decide (formatCollectionName id r = formatCollectionName id rl))) = true := by
    intro r hr
    have : ¬ formatCollectionName id r = formatCollectionName id rl := by
      intro he
      exact hne r hr (formatCollectionName_inj id r rl he)
    simp [hpre r, this]
  rw [List.filter_append]
  rw [List.filter_eq_self.mpr hval]
  simp

theorem pairwise_ne_of_ascending (l : List GoString) (x : GoString)
    (h : ∀ r ∈ l, goStringLt r x = true) : ¬ x ∈ l := by
  intro hx
  have := h x hx
  rw [goStringLt_irrefl] at this
  exact Bool.false_ne_true this

/-- C5: with N generations `id-r1 .. id-rN` for ascending revisions and the
current collection `id-rN`, pruning deletes nothing for N ≤ 1, and for N ≥ 2
deletes exactly the names below the next-most-recent one, so that exactly
`id-r(N-1)` and `id-rN` remain. -/
theorem pruneOldCollections_retention (id : GoString) :
    (∀ current : GoString, pruneToDelete [] id current = []) ∧
    (∀ rl : GoString,
      pruneToDelete [formatCollectionName id rl] id (formatCollectionName id rl) = []) ∧
    (∀ (rs : List GoString) (p rl : GoString),
      List.Pairwise (fun a b => goStringLt a b = true) (rs ++ [p, rl]) →
      pruneToDelete ((rs ++ [p, rl]).map (formatCollectionName id)) id
          (formatCollectionName id rl) = (rs.map (formatCollectionName id)).reverse ∧
      pruneRemaining ((rs ++ [p, rl]).map (formatCollectionName id)) id
          (formatCollectionName id rl) =
        [formatCollectionName id p, formatCollectionName id rl]) := by
  refine ⟨fun current => rfl, fun rl => ?_, fun rs p rl hpw => ?_⟩
  · have hcand :
        pruneCandidates [formatCollectionName id rl] id (formatCollectionName id rl) = [] := by
      have := pruneCandidates_map id [] rl (by intro r hr; simp at hr)
      simpa using this
    unfold pruneToDelete
    rw [hcand]
    rfl
  · -- decompose the pairwise hypothesis
    rw [show rs ++ [p, rl] = (rs ++ [p]) ++ [rl] by simp] at hpw
    rw [List.pairwise_append] at hpw
    obtain ⟨hpw1, _, hcross⟩ := hpw
    -- hpw1 : Pairwise lt (rs ++ [p]); hcross : ∀ a ∈ rs ++ [p], lt a rl
    have hne : ∀ r ∈ rs ++ [p], ¬ r = rl := by
      intro r hr he
      have := hcross r hr rl (by simp)
      rw [he, goStringLt_irrefl] at this
      exact Bool.false_ne_true this
    have hcand :
        pruneCandidates (((rs ++ [p]) ++ [rl]).map (formatCollectionName id)) id
          (formatCollectionName id rl) = (rs ++ [p]).map (formatCollectionName id) :=
      pruneCandidates_map id (rs ++ [p]) rl hne
    have hmappw :
        List.Pairwise (fun a b => goStringLt a b = true)
          ((rs ++ [p]).map (formatCollectionName id)) := by
      refine List.Pairwise.map (formatCollectionName id) ?_ hpw1
      intro a b hab
      rw [goStringLt_format]
      exact hab
    have hsorted :
        sortDescending ((rs ++ [p]).map (formatCollectionName id)) =
          formatCollectionName id p :: (rs.map (formatCollectionName id)).reverse := by
      rw [sortDescending_of_ascending _ hmappw]
      simp
    have hdel :
        pruneToDelete ((rs ++ [p, rl]).map (formatCollectionName id)) id
          (formatCollectionName id rl) = (rs.map (formatCollectionName id)).reverse := by
      unfold pruneToDelete
      rw [show rs ++ [p, rl] = (rs ++ [p]) ++ [rl] by simp, hcand, hsorted]
      by_cases hrs : rs = []
      · subst hrs
        simp
      · have hlen : 0 < rs.length := List.length_pos.mpr hrs
        have : 1 < (formatCollectionName id p ::
            (rs.map (formatCollectionName id)).reverse).length := by
          simp [List.length_reverse, List.length_map]
          omega
        rw [if_pos this]
        simp
    refine ⟨hdel, ?_⟩
    -- membership facts for the remaining-collections computation
    have hppos : ¬ p ∈ rs := by
      refine pairwise_ne_of_ascending rs p ?_
      intro r hr
      rw [List.pairwise_append] at hpw1
      exact hpw1.2.2 r hr p (by simp)
    have hrlpos : ¬ rl ∈ rs := by
      refine pairwise_ne_of_ascending rs rl ?_
      intro r hr
      exact hcross r (by simp [hr]) rl (by simp)
    unfold pruneRemaining
    rw [hdel]
    have hsplit : (rs ++ [p, rl]).map (formatCollectionName id)
        = rs.map (formatCollectionName id) ++
          [formatCollectionName id p, formatCollectionName id rl] := by
      simp
    rw [hsplit, List.filter_append]
    have h1 : (rs.map (formatCollectionName id)).filter
        (fun col => decide (¬ col ∈ (rs.map (formatCollectionName id)).reverse)) = [] := by
      rw [List.filter_eq_nil_iff]
      intro a ha htrue
      exact (of_decide_eq_true htrue) (List.mem_reverse.mpr ha)
    have h2 : ([formatCollectionName id p, formatCollectionName id rl]).filter
        (fun col => decide (¬ col ∈ (rs.map (formatCollectionName id)).reverse)) =
        [formatCollectionName id p, formatCollectionName id rl] := by
      rw [List.filter_eq_self]
      intro a ha
      rcases List.mem_cons.mp ha with h | h
      · subst h
        exact decide_eq_true
          (fun hmem => hppos ((mem_map_format id p rs).mp (List.mem_reverse.mp hmem)))
      · have ha2 : a = formatCollectionName id rl := by simpa using h
        subst ha2
        exact decide_eq_true
          (fun hmem => hrlpos ((mem_map_format id rl rs).mp (List.mem_reverse.mp hmem)))
    rw [h1, h2]
    rfl

/-- Witness for C5 at three concrete generations of one index. -/
theorem pruneOldCollections_retention_witness :
    pruneToDelete ((([['1']] ++ [['2'], ['3']]).map (formatCollectionName ['a']))) ['a']
        (formatCollectionName ['a'] ['3']) =
      ([['1']].map (formatCollectionName ['a'])).reverse ∧
    pruneRemaining ((([['1']] ++ [['2'], ['3']]).map (formatCollectionName ['a']))) ['a']
        (formatCollectionName ['a'] ['3']) =
      [formatCollectionName ['a'] ['2'], formatCollectionName ['a'] ['3']] :=
  (pruneOldCollections_retention ['a']).2.2 [['1']] ['2'] ['3'] (by decide)

/-- C4: `UpsertDocuments` succeeds without any remote call on an empty
document slice; on a non-empty slice per-document failures inside the bulk
result never produce an error, and an error is returned exactly when the bulk
call itself was rejected. -/
theorem upsertDocuments_error_iff {Doc : Type} (documents : List Doc)
    (importCall : Except GoString (List ImportResult)) :
    ((UpsertDocuments documents importCall).remoteCalled = true ↔ ¬ documents = []) ∧
    (∀ e : GoString,
      (UpsertDocuments documents importCall).errorReturned = some e ↔
        (¬ documents = [] ∧ importCall = Except.error e)) := by
  unfold UpsertDocuments
  by_cases h : documents = []
  · subst h
    simp
  · have hlen : ¬ documents.length = 0 := by
      simpa [List.length_eq_zero] using h
    cases importCall with
    | error e0 => simp [hlen, h, eq_comm]
    | ok rs => simp [hlen, h]

/-- Witness for C4: one document whose single per-document result is a
failure still yields a nil error from a bulk call that went through. -/
theorem upsertDocuments_error_iff_witness :
    ((UpsertDocuments [()]
        (Except.ok [{ success := false, errorMsg := ['x'] }])).remoteCalled = true ↔
      ¬ ([()] : List Unit) = []) ∧
    (∀ e : GoString,
      (UpsertDocuments [()]
          (Except.ok [{ success := false, errorMsg := ['x'] }])).errorReturned = some e ↔
        (¬ ([()] : List Unit) = [] ∧
          (Except.ok [{ success := false, errorMsg := ['x'] }]
            : Except GoString (List ImportResult)) = Except.error e)) :=
  upsertDocuments_error_iff [()] (Except.ok [{ success := false, errorMsg := ['x'] }])

theorem runIndexLoop_attempted {Doc : Type} (env : RunEnv Doc) (revisionID : GoString) :
    ∀ (indices : List GoString) (tainted : Bool) (count : Nat)
      (attempted : List GoString),
      (runIndexLoop env revisionID indices tainted count attempted).2.2
        = attempted ++ indices := by
  intro indices
  induction indices with
  | nil =>
    intro t c a
    simp [runIndexLoop]
  | cons i rest ih =>
    intro t c a
    simp only [runIndexLoop]
    cases hp : env.provideResult i with
    | error e => simp [hp, ih]
    | ok docs =>
      cases hu : env.upsertResult revisionID i docs with
      | error e => simp [hp, hu, ih]
      | ok u => simp [hp, hu, ih]

theorem runIndexLoop_tainted_true {Doc : Type} (env : RunEnv Doc) (revisionID : GoString) :
    ∀ (indices : List GoString) (count : Nat) (attempted : List GoString),
      (runIndexLoop env revisionID indices true count attempted).1 = true := by
  intro indices
  induction indices with
  | nil =>
    intro c a
    simp [runIndexLoop]
  | cons i rest ih =>
    intro c a
    simp only [runIndexLoop]
    cases hp : env.provideResult i with
    | error e => simp [hp, ih]
    | ok docs =>
      cases hu : env.upsertResult revisionID i docs with
      | error e => simp [hp, hu, ih]
      | ok u => simp [hp, hu, ih]

theorem runIndexLoop_tainted_of_fail {Doc : Type} (env : RunEnv Doc)
    (revisionID : GoString) :
    ∀ (indices : List GoString) (tainted : Bool) (count : Nat)
      (attempted : List GoString),
      (∃ i ∈ indices, indexAttemptFails env revisionID i) →
      (runIndexLoop env revisionID indices tainted count attempted).1 = true := by
  intro indices
  induction indices with
  | nil =>
    intro t c a h
    rcases h with ⟨i, hi, _⟩
    simp at hi
  | cons j rest ih =>
    intro t c a h
    rcases h with ⟨i, hi, hfail⟩
    rcases List.mem_cons.mp hi with rfl | hrest
    · rcases hfail with ⟨e, hp⟩ | ⟨docs, hp, e, hu⟩
      · simp [runIndexLoop, hp, runIndexLoop_tainted_true]
      · simp [runIndexLoop, hp, hu, runIndexLoop_tainted_true]
    · simp only [runIndexLoop]
      cases hp : env.provideResult j with
      | error e => simp [hp, runIndexLoop_tainted_true]
      | ok docs =>
        cases hu : env.upsertResult revisionID j docs with
        | error e => simp [hp, hu, runIndexLoop_tainted_true]
        | ok u =>
          simp only [hp, hu]
          exact ih t (c + docs.length) (a ++ [j]) ⟨i, hrest, hfail⟩

/-- C2: for every `Run` that completes its per-index loop, `CommitRevision` is
invoked (and `RevertRevision` is not) exactly when the loop ended with the
taint flag false and a positive total document count; in every other case
`RevertRevision` is invoked and `CommitRevision` is not. -/
theorem run_commit_iff {Doc : Type} (env : RunEnv Doc) (revisionID : GoString)
    (indices : List GoString)
    (hinit : env.initResult = Except.ok revisionID) (hrev : ¬ revisionID = [])
    (hind : env.indicesResult = Except.ok indices) :
    (((Run env).commitCalled = true ∧ (Run env).revertCalled = false) ↔
      ((runIndexLoop env revisionID indices false 0 []).1 = false ∧
        0 < (runIndexLoop env revisionID indices false 0 []).2.1)) ∧
    (((Run env).revertCalled = true ∧ (Run env).commitCalled = false) ↔
      ¬ ((runIndexLoop env revisionID indices false 0 []).1 = false ∧
        0 < (runIndexLoop env revisionID indices false 0 []).2.1)) := by
  by_cases hcond : (runIndexLoop env revisionID indices false 0 []).1 = false ∧
      0 < (runIndexLoop env revisionID indices false 0 []).2.1
  · simp [Run, hinit, hrev, hind, hcond]
  · simp [Run, hinit, hrev, hind, hcond]

/-- Witness for C2 at a concrete fully successful one-index run. -/
theorem run_commit_iff_witness :
    (((Run c2Env).commitCalled = true ∧ (Run c2Env).revertCalled = false) ↔
      ((runIndexLoop c2Env ['r'] [['a']] false 0 []).1 = false ∧
        0 < (runIndexLoop c2Env ['r'] [['a']] false 0 []).2.1)) ∧
    (((Run c2Env).revertCalled = true ∧ (Run c2Env).commitCalled = false) ↔
      ¬ ((runIndexLoop c2Env ['r'] [['a']] false 0 []).1 = false ∧
        0 < (runIndexLoop c2Env ['r'] [['a']] false 0 []).2.1)) :=
  run_commit_iff c2Env ['r'] [['a']] rfl (by decide) rfl

/-- C3: when provision or upsert fails for some index, the run is tainted yet
every index is still attempted, `RevertRevision` (not `CommitRevision`) is
invoked, and `Run` returns the revert call's error, never the per-index
failure. -/
theorem run_taint_continues {Doc : Type} (env : RunEnv Doc) (revisionID : GoString)
    (indices : List GoString)
    (hinit : env.initResult = Except.ok revisionID) (hrev : ¬ revisionID = [])
    (hind : env.indicesResult = Except.ok indices)
    (hfail : ∃ i ∈ indices, indexAttemptFails env revisionID i) :
    (Run env).attempted = indices ∧
    (Run env).tainted = true ∧
    (Run env).revertCalled = true ∧
    (Run env).commitCalled = false ∧
    (Run env).errorReturned =
      (match env.revertResult with
        | Except.error e => some e
        | Except.ok _ => none) := by
  have htaint := runIndexLoop_tainted_of_fail env revisionID indices false 0 [] hfail
  have hatt := runIndexLoop_attempted env revisionID indices false 0 []
  have hcond : ¬ ((runIndexLoop env revisionID indices false 0 []).1 = false ∧
      0 < (runIndexLoop env revisionID indices false 0 []).2.1) := by
    intro hc
    rw [htaint] at hc
    exact absurd hc.1 (by decide)
  simp [Run, hinit, hrev, hind, hcond, htaint, hatt]

/-- Witness for C3 at a concrete run whose second index fails provision. -/
theorem run_taint_continues_witness :
    (Run c3Env).attempted = [['a'], ['b']] ∧
    (Run c3Env).tainted = true ∧
    (Run c3Env).revertCalled = true ∧
    (Run c3Env).commitCalled = false ∧
    (Run c3Env).errorReturned =
      (match c3Env.revertResult with
        | Except.error e => some e
        | Except.ok _ => none) :=
  run_taint_continues c3Env ['r'] [['a'], ['b']] rfl (by decide) rfl
    ⟨['b'], by simp, Or.inl ⟨['x'], rfl⟩⟩

theorem lookupAlias_aliasUpsert_self (m : AliasMap) (k v : GoString) :
    lookupAlias (aliasUpsert m k v) k = some v := by
  simp [aliasUpsert, lookupAlias]

theorem lookupAlias_filter_ne (m : AliasMap) (k key : GoString) (h : ¬ key = k) :
    lookupAlias (m.filter (fun p => !(decide (p.1 = k)))) key = lookupAlias m key := by
  induction m with
  | nil => rfl
  | cons p rest ih =>
    obtain ⟨k1, v1⟩ := p
    have hk2 : ¬ k = key := fun he => h he.symm
    by_cases hp : k1 = k
    · simp [List.filter_cons, hp, lookupAlias, hk2, ih]
    · by_cases hk : k1 = key
      · simp [List.filter_cons, hp, lookupAlias, hk, h]
      · simp [List.filter_cons, hp, lookupAlias, hk, ih]

theorem lookupAlias_aliasUpsert_other (m : AliasMap) (k v key : GoString)
    (h : ¬ key = k) :
    lookupAlias (aliasUpsert m k v) key = lookupAlias m key := by
  have hk : ¬ k = key := fun he => h he.symm
  simp only [aliasUpsert, lookupAlias, hk, if_false]
  · exact lookupAlias_filter_ne m k key h

theorem initLoop_preserve (env : InitEnv) :
    ∀ (cfg : List GoString) (aliases : AliasMap) (key : GoString), ¬ key ∈ cfg →
      lookupAlias (initLoop env cfg aliases).1 key = lookupAlias aliases key := by
  intro cfg
  induction cfg with
  | nil =>
    intro a key h
    rfl
  | cons i rest ih =>
    intro a key h
    have hne : ¬ key = i := fun he => h (by simp [he])
    have hrest : ¬ key ∈ rest := fun hm => h (by simp [hm])
    simp only [initLoop]
    cases hc : env.createResult (formatCollectionName i env.newRevisionID) with
    | some e => rfl
    | none =>
      cases hu : env.aliasUpsertResult i with
      | some e => rfl
      | none =>
        rw [ih _ key hrest]
        exact lookupAlias_aliasUpsert_other a i _ key hne

theorem initLoop_lookup (env : InitEnv) :
    ∀ (cfg : List GoString) (aliases : AliasMap) (indexID : GoString),
      (initLoop env cfg aliases).2 = none → indexID ∈ cfg →
      lookupAlias (initLoop env cfg aliases).1 indexID
        = some (formatCollectionName indexID env.newRevisionID) := by
  intro cfg
  induction cfg with
  | nil =>
    intro a i _ hm
    simp at hm
  | cons j rest ih =>
    intro a i hnone hm
    simp only [initLoop] at hnone ⊢
    cases hc : env.createResult (formatCollectionName j env.newRevisionID) with
    | some e =>
      rw [hc] at hnone
      simp at hnone
    | none =>
      rw [hc] at hnone
      cases hu : env.aliasUpsertResult j with
      | some e =>
        rw [hu] at hnone
        simp at hnone
      | none =>
        rw [hu] at hnone
        by_cases hi : i ∈ rest
        · exact ih _ i hnone hi
        · have hij : i = j := by
            rcases List.mem_cons.mp hm with h | h
            · exact h
            · exact absurd h hi
          subst hij
          rw [initLoop_preserve env rest _ i hi]
          exact lookupAlias_aliasUpsert_self a i _

/-- C1 counterexample: in a fully successful `Initialize` over one configured
index whose alias pointed at an older generation, the alias afterwards points
at the generation of the newly minted revision id — it neither keeps its old
target nor is left untouched, so the new generation is alias-visible before
any document is pushed. -/
theorem initialize_repoints_alias_counterexample :
    lookupAlias
        (Initialize [['i']] false c1Env { revisionID := [] }
          [(['i'], formatCollectionName ['i'] c1OldRev)]).storeAliases ['i']
      = some (formatCollectionName ['i'] c1Env.newRevisionID) ∧
    ¬ (formatCollectionName ['i'] c1Env.newRevisionID
        = formatCollectionName ['i'] c1OldRev) := by
  decide

/-- C1 amended: whenever `Initialize` gets past its per-index loop without an
error (in particular whenever it returns successfully), the alias of every
configured index points at the NEW generation
`formatCollectionName indexID newRevisionID` (the alias swap happens during
initialize, not only at commit). -/
theorem initialize_repoints_alias (cfgIndices : List GoString)
    (presetConfigured : Bool) (env : InitEnv) (st : APIState)
    (storeAliases : AliasMap)
    (hh : env.healthResult = none)
    (ha : ∃ aliasList, env.aliasesRetrieveResult = Except.ok aliasList)
    (hc : ∃ collectionList, env.collectionsRetrieveResult = Except.ok collectionList)
    (hl : (initLoop env cfgIndices storeAliases).2 = none)
    (indexID : GoString) (hmem : indexID ∈ cfgIndices) :
    lookupAlias
        (Initialize cfgIndices presetConfigured env st storeAliases).storeAliases indexID
      = some (formatCollectionName indexID env.newRevisionID) := by
  obtain ⟨al, ha⟩ := ha
  obtain ⟨cl, hc⟩ := hc
  have hgoal := initLoop_lookup env cfgIndices storeAliases indexID hl hmem
  by_cases hpc : presetConfigured
  · cases hp : env.presetUpsertResult with
    | some e => simp [Initialize, hh, ha, hc, hl, hpc, hp, hgoal]
    | none => simp [Initialize, hh, ha, hc, hl, hpc, hp, hgoal]
  · simp [Initialize, hh, ha, hc, hl, hpc, hgoal]

/-- Witness for the amended C1 at a concrete successful initialize. -/
theorem initialize_repoints_alias_witness :
    lookupAlias
        (Initialize [['i']] false c1Env { revisionID := [] }
          [(['i'], formatCollectionName ['i'] c1OldRev)]).storeAliases ['i']
      = some (formatCollectionName ['i'] c1Env.newRevisionID) :=
  initialize_repoints_alias [['i']] false c1Env { revisionID := [] }
    [(['i'], formatCollectionName ['i'] c1OldRev)] rfl
    ⟨[(['i'], formatCollectionName ['i'] c1OldRev)], rfl⟩
    ⟨[formatCollectionName ['i'] c1OldRev], rfl⟩ (by decide) ['i'] (by simp)

/-- C10: `Healthz` errors exactly when the `revisionID` field is empty (it
takes no store input at all), and since `Initialize` assigns the field before
upserting the search preset, a preset-upsert failure makes `Initialize` return
that error while `Healthz` already succeeds on the resulting state. -/
theorem healthz_revisionID_only (cfgIndices : List GoString) (env : InitEnv)
    (st : APIState) (storeAliases : AliasMap) (e : GoString)
    (hh : env.healthResult = none)
    (ha : ∃ aliasList, env.aliasesRetrieveResult = Except.ok aliasList)
    (hc : ∃ collectionList, env.collectionsRetrieveResult = Except.ok collectionList)
    (hl : (initLoop env cfgIndices storeAliases).2 = none)
    (hp : env.presetUpsertResult = some e)
    (hr : ¬ env.newRevisionID = []) :
    (∀ rid : GoString, Healthz rid = none ↔ ¬ rid = []) ∧
    (Initialize cfgIndices true env st storeAliases).result = Except.error e ∧
    Healthz (Initialize cfgIndices true env st storeAliases).state.revisionID = none := by
  obtain ⟨al, ha⟩ := ha
  obtain ⟨cl, hc⟩ := hc
  refine ⟨?_, ?_, ?_⟩
  · intro rid
    unfold Healthz
    by_cases h : rid = [] <;> simp [h]
  · simp [Initialize, hh, ha, hc, hl, hp]
  · simp [Initialize, hh, ha, hc, hl, hp, Healthz, hr]

/-- Witness for C10: a concrete initialize that fails only at the preset
upsert returns that error, yet Healthz succeeds afterwards. -/
theorem healthz_revisionID_only_witness :
    (∀ rid : GoString, Healthz rid = none ↔ ¬ rid = []) ∧
    (Initialize [['i']] true c10Env { revisionID := [] } []).result
      = Except.error ['p'] ∧
    Healthz (Initialize [['i']] true c10Env { revisionID := [] } []).state.revisionID
      = none :=
  healthz_revisionID_only [['i']] c10Env { revisionID := [] } [] ['p'] rfl
    ⟨[], rfl⟩ ⟨[], rfl⟩ (by decide) rfl (by decide)

theorem take_set_self {α : Type} :
    ∀ (l : List α) (k : Nat) (a : α), (l.set k a).take k = l.take k := by
  intro l
  induction l with
  | nil =>
    intro k a
    rfl
  | cons x xs ih =>
    intro k a
    cases k with
    | zero => rfl
    | succ k => simp [List.set_cons_succ, List.take_succ_cons, ih k a]

theorem take_succ_eq {α : Type} :
    ∀ (l : List α) (k : Nat) (a : α), l[k]? = some a → l.take (k + 1) = l.take k ++ [a] := by
  intro l
  induction l with
  | nil =>
    intro k a h
    simp at h
  | cons x xs ih =>
    intro k a h
    cases k with
    | zero =>
      simp at h
      simp [h]
    | succ k =>
      simp only [List.getElem?_cons_succ] at h
      simp [List.take_succ_cons, ih k a h]

theorem provideLoop_cons_none {Doc : Type} (funcs : List (GoString × ProviderFunc Doc))
    (indexID : GoString) (urls : UrlMap) (info : DocumentInfo) (rest : List DocumentInfo)
    (k : Nat) (documents : List (Option Doc))
    (h : provideSlot funcs indexID urls info = none) :
    provideLoop funcs indexID urls (info :: rest) k documents
      = provideLoop funcs indexID urls rest (k + 1) documents := by
  cases hf : lookupProviderFunc funcs info.documentType with
  | none => simp only [provideLoop, hf]
  | some f =>
    cases hd : f indexID info.documentID urls with
    | error e => simp only [provideLoop, hf, hd]
    | ok dopt =>
      cases dopt with
      | none => simp only [provideLoop, hf, hd]
      | some d =>
        exfalso
        simp only [provideSlot, hf, hd] at h
        exact Option.noConfusion h

theorem provideLoop_cons_some {Doc : Type} (funcs : List (GoString × ProviderFunc Doc))
    (indexID : GoString) (urls : UrlMap) (info : DocumentInfo) (rest : List DocumentInfo)
    (k : Nat) (documents : List (Option Doc)) (document : Doc)
    (h : provideSlot funcs indexID urls info = some document) :
    provideLoop funcs indexID urls (info :: rest) k documents
      = provideLoop funcs indexID urls rest (k + 1) (documents.set k (some document)) := by
  cases hf : lookupProviderFunc funcs info.documentType with
  | none =>
    exfalso
    simp only [provideSlot, hf] at h
    exact Option.noConfusion h
  | some f =>
    cases hd : f indexID info.documentID urls with
    | error e =>
      exfalso
      simp only [provideSlot, hf, hd] at h
      exact Option.noConfusion h
    | ok dopt =>
      cases dopt with
      | none =>
        exfalso
        simp only [provideSlot, hf, hd] at h
        exact Option.noConfusion h
      | some d =>
        have hds : d = document := by
          simp only [provideSlot, hf, hd, Option.some.injEq] at h
          exact h
        simp only [provideLoop, hf, hd, hds]

theorem provideLoop_eq {Doc : Type} (funcs : List (GoString × ProviderFunc Doc))
    (indexID : GoString) (urls : UrlMap) :
    ∀ (infos : List DocumentInfo) (k : Nat) (documents : List (Option Doc)),
      documents.length = k + infos.length →
      (∀ j, k ≤ j → j < documents.length → documents[j]? = some none) →
      provideLoop funcs indexID urls infos k documents
        = documents.take k ++ infos.map (provideSlot funcs indexID urls) := by
  intro infos
  induction infos with
  | nil =>
    intro k documents hlen _
    simp only [provideLoop, List.map_nil, List.append_nil]
    have : documents.length = k := by simpa using hlen
    rw [← this, List.take_length]
  | cons info rest ih =>
    intro k documents hlen hinv
    have hklt : k < documents.length := by
      rw [hlen, List.length_cons]
      omega
    have hdk : documents[k]? = some none := hinv k (Nat.le_refl k) hklt
    have hlen2 : documents.length = (k + 1) + rest.length := by
      rw [hlen, List.length_cons]
      omega
    have hinv2 : ∀ j, k + 1 ≤ j → j < documents.length → documents[j]? = some none :=
      fun j hj hjl => hinv j (by omega) hjl
    cases hslot : provideSlot funcs indexID urls info with
    | none =>
      rw [provideLoop_cons_none funcs indexID urls info rest k documents hslot]
      rw [ih (k + 1) documents hlen2 hinv2, take_succ_eq documents k none hdk]
      simp [hslot]
    | some document =>
      rw [provideLoop_cons_some funcs indexID urls info rest k documents document hslot]
      have hlen3 : (documents.set k (some document)).length = (k + 1) + rest.length := by
        simp [hlen2]
      have hinv3 : ∀ j, k + 1 ≤ j → j < (documents.set k (some document)).length →
          (documents.set k (some document))[j]? = some none := by
        intro j hj hjl
        rw [List.getElem?_set_ne (by omega)]
        exact hinv2 j hj (by simpa using hjl)
      rw [ih (k + 1) (documents.set k (some document)) hlen3 hinv3]
      have hset : (documents.set k (some document))[k]? = some (some document) :=
        List.getElem?_set_eq_of_lt (some document) hklt
      rw [take_succ_eq (documents.set k (some document)) k (some document) hset]
      rw [take_set_self documents k (some document)]
      simp [hslot]

/-- C9: `Provide` returns a sequence of exactly the input length in which each
position is determined by the descriptor at that same position: a missing
provider function or a provider error leaves that slot empty without shifting
any other slot. -/
theorem provide_positional {Doc : Type} (funcs : List (GoString × ProviderFunc Doc))
    (indexID : GoString) (urls : UrlMap) (documentInfos : List DocumentInfo) :
    (Provide funcs indexID urls documentInfos).length = documentInfos.length ∧
    (∀ j : Nat, (Provide funcs indexID urls documentInfos)[j]?
      = (documentInfos[j]?).map (provideSlot funcs indexID urls)) := by
  have hmain : Provide funcs indexID urls documentInfos
      = documentInfos.map (provideSlot funcs indexID urls) := by
    unfold Provide
    rw [provideLoop_eq funcs indexID urls documentInfos 0
      (List.replicate documentInfos.length none) (by simp)
      (fun j _ hjl => List.getElem?_replicate_of_lt (by simpa using hjl))]
    simp
  rw [hmain]
  constructor
  · simp
  · intro j
    simp

theorem mapSet_fresh (m : NodeMap) (k : GoString) (v : RepoNode)
    (h : ∀ p ∈ m, ¬ p.1 = k) : mapSet m k v = m ++ [(k, v)] := by
  have hany : ¬ (m.any (fun p => decide (p.1 = k)) = true) := by
    simp only [List.any_eq_true, decide_eq_true_eq]
    rintro ⟨p, hp, he⟩
    exact h p hp he
  simp [mapSet, hany]

mutual
theorem createFlat_eq : ∀ (o : Option RepoNode) (m : NodeMap),
    (∀ p ∈ m, ¬ p.1 ∈ (treeNodes o).map RepoNode.idOf) →
    ((treeNodes o).map RepoNode.idOf).Nodup →
    createFlatRepoNodeMap o m = m ++ (treeNodes o).map (fun n => (n.idOf, n))
  | none, m, _, _ => by
    simp [createFlatRepoNodeMap, treeNodes]
  | some (RepoNode.node i mt hd cs), m, hdisj, hnodup => by
    have hids : (treeNodes (some (RepoNode.node i mt hd cs))).map RepoNode.idOf
        = i :: (forestNodes cs).map RepoNode.idOf := by
      simp [treeNodes, RepoNode.idOf]
    rw [hids] at hdisj hnodup
    rw [List.nodup_cons] at hnodup
    have hset : mapSet m i (RepoNode.node i mt hd cs)
        = m ++ [(i, RepoNode.node i mt hd cs)] := by
      refine mapSet_fresh m i (RepoNode.node i mt hd cs) ?_
      intro p hp he
      exact hdisj p hp (by simp [he])
    have hdisj2 : ∀ p ∈ m ++ [(i, RepoNode.node i mt hd cs)],
        ¬ p.1 ∈ (forestNodes cs).map RepoNode.idOf := by
      intro p hp
      rcases List.mem_append.mp hp with hp | hp
      · intro hmem
        exact hdisj p hp (by simp [hmem])
      · have hpi : p = (i, RepoNode.node i mt hd cs) := by simpa using hp
        rw [hpi]
        exact hnodup.1
    have hrec := flatChildren_eq cs (m ++ [(i, RepoNode.node i mt hd cs)]) hdisj2 hnodup.2
    calc createFlatRepoNodeMap (some (RepoNode.node i mt hd cs)) m
        = flatMapChildren cs (mapSet m i (RepoNode.node i mt hd cs)) := by
          simp [createFlatRepoNodeMap]
      _ = flatMapChildren cs (m ++ [(i, RepoNode.node i mt hd cs)]) := by rw [hset]
      _ = (m ++ [(i, RepoNode.node i mt hd cs)]) ++
            (forestNodes cs).map (fun n => (n.idOf, n)) := hrec
      _ = m ++ (treeNodes (some (RepoNode.node i mt hd cs))).map (fun n => (n.idOf, n)) := by
          simp [treeNodes, RepoNode.idOf]

theorem flatChildren_eq : ∀ (cs : List (Option RepoNode)) (m : NodeMap),
    (∀ p ∈ m, ¬ p.1 ∈ (forestNodes cs).map RepoNode.idOf) →
    ((forestNodes cs).map RepoNode.idOf).Nodup →
    flatMapChildren cs m = m ++ (forestNodes cs).map (fun n => (n.idOf, n))
  | [], m, _, _ => by
    simp [flatMapChildren, forestNodes]
  | c :: rest, m, hdisj, hnodup => by
    have hids : (forestNodes (c :: rest)).map RepoNode.idOf
        = (treeNodes c).map RepoNode.idOf ++ (forestNodes rest).map RepoNode.idOf := by
      simp [forestNodes]
    rw [hids] at hdisj hnodup
    rw [List.nodup_append] at hnodup
    have hdisj1 : ∀ p ∈ m, ¬ p.1 ∈ (treeNodes c).map RepoNode.idOf := by
      intro p hp hmem
      exact hdisj p hp (List.mem_append.mpr (Or.inl hmem))
    have hrec1 := createFlat_eq c m hdisj1 hnodup.1
    have hdisj2 : ∀ p ∈ m ++ (treeNodes c).map (fun n => (n.idOf, n)),
        ¬ p.1 ∈ (forestNodes rest).map RepoNode.idOf := by
      intro p hp
      rcases List.mem_append.mp hp with hp | hp
      · intro hmem
        exact hdisj p hp (List.mem_append.mpr (Or.inr hmem))
      · rcases List.mem_map.mp hp with ⟨n, hn, rfl⟩
        exact hnodup.2.2 (List.mem_map_of_mem RepoNode.idOf hn)
    have hrec2 := flatChildren_eq rest (m ++ (treeNodes c).map (fun n => (n.idOf, n)))
      hdisj2 hnodup.2.1
    calc flatMapChildren (c :: rest) m
        = flatMapChildren rest (createFlatRepoNodeMap c m) := by
          simp [flatMapChildren]
      _ = flatMapChildren rest (m ++ (treeNodes c).map (fun n => (n.idOf, n))) := by
          rw [hrec1]
      _ = (m ++ (treeNodes c).map (fun n => (n.idOf, n))) ++
            (forestNodes rest).map (fun n => (n.idOf, n)) := hrec2
      _ = m ++ (forestNodes (c :: rest)).map (fun n => (n.idOf, n)) := by
          simp [forestNodes]
end

theorem createFlat_nil (root : Option RepoNode)
    (hnodup : ((treeNodes root).map RepoNode.idOf).Nodup) :
    createFlatRepoNodeMap root [] = (treeNodes root).map (fun n => (n.idOf, n)) := by
  have h := createFlat_eq root []
    (by intro p hp; simp at hp) hnodup
  simpa using h

/-- C8: over any content tree with unique node identities, the extracted
descriptor set contains a descriptor exactly for the reachable (non-null)
nodes that are not hidden and whose mime type is in the supported allow-list;
a hidden node is excluded regardless of its type. -/
theorem extraction_inclusion (repo : List (GoString × Option RepoNode))
    (supported : List GoString) (indexID : GoString) (root : Option RepoNode)
    (hdim : lookupRepoDimension repo indexID = some root)
    (hnodup : ((treeNodes root).map RepoNode.idOf).Nodup) :
    ∃ out, getDocumentIDsByIndexID repo supported indexID = Except.ok out ∧
      ∀ info : DocumentInfo,
        (info ∈ out ↔ ∃ n, n ∈ treeNodes root ∧ n.hiddenOf = false ∧
          slicesContains supported n.mimeOf = true ∧
          info = { documentType := n.mimeOf, documentID := n.idOf }) := by
  refine ⟨documentInfosOf supported (createFlatRepoNodeMap root []), ?_, ?_⟩
  · simp [getDocumentIDsByIndexID, hdim]
  · intro info
    rw [createFlat_nil root hnodup]
    unfold documentInfosOf
    rw [List.mem_filterMap]
    constructor
    · rintro ⟨p, hp, hpred⟩
      rcases List.mem_map.mp hp with ⟨n, hn, rfl⟩
      by_cases hcond : (n.hiddenOf || !(slicesContains supported n.mimeOf)) = true
      · rw [if_pos hcond] at hpred
        exact absurd hpred (by simp)
      · rw [if_neg hcond] at hpred
        have h1 : n.hiddenOf = false ∧ slicesContains supported n.mimeOf = true := by
          rcases Bool.or_eq_false_iff.mp (Bool.eq_false_iff.mpr hcond) with ⟨ha, hb⟩
          exact ⟨ha, by simpa using hb⟩
        refine ⟨n, hn, h1.1, h1.2, ?_⟩
        exact (Option.some.injEq _ _ ▸ hpred).symm
    · rintro ⟨n, hn, hh, hc, rfl⟩
      refine ⟨(n.idOf, n), List.mem_map_of_mem _ hn, ?_⟩
      simp [hh, hc]

/-- Witness for C8 at the spec's example tree: A hidden, B of unsupported
type, C visible and supported. -/
theorem extraction_inclusion_witness :
    ∃ out, getDocumentIDsByIndexID c8Repo [['t']] ['d'] = Except.ok out ∧
      ∀ info : DocumentInfo,
        (info ∈ out ↔ ∃ n, n ∈ treeNodes c8Root ∧ n.hiddenOf = false ∧
          slicesContains [['t']] n.mimeOf = true ∧
          info = { documentType := n.mimeOf, documentID := n.idOf }) :=
  extraction_inclusion c8Repo [['t']] ['d'] c8Root rfl
    (by
      have h : (treeNodes c8Root).map RepoNode.idOf = [['r'], ['a'], ['b'], ['c']] := by
        simp [c8Root, c8NodeA, c8NodeB, c8NodeC, treeNodes, forestNodes, RepoNode.idOf]
      rw [h]
      decide)

end FoomoTypesense
